import Mathlib

/-!
Verification of the entity-sentiment attribution pipeline of
`simurg_predict_api.py` (the `predict` endpoint).

The input text is modelled as a `List Char`.  The two pretrained models are
modelled as injected opaque functions, following the spec's capability view:

* the NER tagger (`ner_pipeline`) maps the (capitalized) text to a list of
  raw tags, each with an `entity_group`, a `word` and character offsets
  `start`/`end` into the text it was given;
* the sentiment classifier (`sentiment_pipeline`) maps a text window to a raw
  label string (such as "Positive").

Python string primitives used by the code are embedded faithfully:
`s[a:b]` becomes `(s.drop a).take (b - a)`, `s.split()` becomes `splitWS`
(split on runs of whitespace, dropping empty chunks), `s.find(t)` becomes
`findSub` (index of first occurrence, `none` for Python's `-1`),
`s.capitalize()` becomes `capitalize` (first character uppercased, remaining
characters lowercased; ASCII-level model of the Python semantics), and
`sorted(key=start)` becomes a stable insertion sort by `start`.
-/

/-- A raw tagger output dictionary: keys `entity_group`, `word`, `start`,
`end` (named `end_` since `end` is reserved in Lean). -/
structure RawTag where
  entity_group : String
  word : List Char
  start : Nat
  end_ : Nat
  deriving Repr, DecidableEq

/-- One element of the `results` output list: `{"entity": ..., "sentiment": ...}`. -/
structure AttributionResult where
  entity : List Char
  sentiment : String
  deriving Repr, DecidableEq

/-- The output dictionary `{"entity_list": ..., "results": ...}`. -/
structure PredictOutput where
  entity_list : List (List Char)
  results : List AttributionResult
  deriving Repr, DecidableEq

/-- Python `test_sentence.capitalize()`: first character uppercased, all
following characters lowercased (ASCII-level model). -/
def capitalize : List Char → List Char
  | [] => []
  | c :: rest => c.toUpper :: rest.map Char.toLower

/-- Helper for `splitWS`: scan with an accumulator of the current
(reversed) in-progress token. -/
def splitWSAux : List Char → List Char → List (List Char)
  | [], acc => if acc.isEmpty then [] else [acc.reverse]
  | c :: rest, acc =>
    if c.isWhitespace then
      if acc.isEmpty then splitWSAux rest [] else acc.reverse :: splitWSAux rest []
    else splitWSAux rest (c :: acc)

/-- Python `test_sentence.split()`: split on runs of whitespace, discarding
empty chunks. -/
def splitWS (l : List Char) : List (List Char) :=
  splitWSAux l []

/-- Python `test_sentence.find(token)`: index of the first occurrence of
`pat` as a contiguous substring of `hay`; `none` models Python's `-1`. -/
def findSub : List Char → List Char → Option Nat
  | [], pat => if pat.isPrefixOf [] then some 0 else none
  | c :: t, pat =>
    if pat.isPrefixOf (c :: t) then some 0
    else (findSub t pat).map (fun n => n + 1)

/-- One iteration of the `##`-merge loop (lines 49-58 of the source): if the
tag's word starts with `##` and the accumulator is nonempty, re-slice the
original text from the last accumulated entity's `start` to this tag's `end`
and update the last entity in place; otherwise append the tag. -/
def combineStep (test_sentence : List Char) (acc : List RawTag) (entity : RawTag) :
    List RawTag :=
  if ("##".toList).isPrefixOf entity.word && !acc.isEmpty then
    match acc.getLast? with
    | some last =>
        acc.dropLast ++
          [{ last with
              word := (test_sentence.drop last.start).take (entity.end_ - last.start),
              end_ := entity.end_ }]
    | none => acc ++ [entity]
  else acc ++ [entity]

/-- The `combined_entities` list built by the `##`-merge loop. -/
def combined_entities (test_sentence : List Char) (ner_results : List RawTag) :
    List RawTag :=
  ner_results.foldl (combineStep test_sentence) []

/-- The synthetic `@`-mention entity appended for one token (lines 64-71):
span located by a first-occurrence substring search in the original text.
`findSub` cannot return `none` here because every whitespace token is a
contiguous substring of the text (proved below), so the `getD 0` default is
dead code. -/
def mentionTag (test_sentence token : List Char) : RawTag :=
  let start := (findSub test_sentence token).getD 0
  { entity_group := "ORG", word := token, start := start, end_ := start + token.length }

/-- All synthetic `@`-mention entities, in token order (lines 61-71): one for
each whitespace-delimited token beginning with `'@'`. -/
def mentionTags (test_sentence : List Char) : List RawTag :=
  (splitWS test_sentence).filterMap (fun token =>
    if token.head? = some '@' then some (mentionTag test_sentence token) else none)

/-- `context_window_size = 10` (line 80). -/
def context_window_size : Nat := 10

/-- The label-to-text mapping of lines 108-115. -/
def sentiment_text (sentiment_label : String) : String :=
  if sentiment_label = "Negative" then "olumsuz"
  else if sentiment_label = "Neutral" then "nötr"
  else if sentiment_label = "Positive" then "olumlu"
  else "nötr"

/-- The attribution emitted for one cluster (lines 96-120): the context
window is `test_sentence[end_idx : min(len, end_idx + 10)]`, the entity text
is the first clustered mention's `word`. -/
def clusterResult (test_sentence : List Char) (sentiment_pipeline : List Char → String)
    (word : List Char) (end_idx : Nat) : AttributionResult :=
  let context_start := end_idx
  let context_end := min test_sentence.length (end_idx + context_window_size)
  let context := (test_sentence.drop context_start).take (context_end - context_start)
  { entity := word, sentiment := sentiment_text (sentiment_pipeline context) }

/-- The clustering loop of lines 85-122, recursing over the still-unvisited
sorted organization list.  `word` and `end_idx` carry the current cluster's
representative word (`org['word']`, fixed at cluster start) and running
`end_idx`.  The inner `while` (absorb the next mention if
`next.start - end_idx <= 1`) and the outer loop are fused into one structural
recursion.  Over `Nat`, `nxt.start - end_idx ≤ 1 ↔ nxt.start ≤ end_idx + 1`,
which agrees with Python's signed arithmetic. -/
def clusterAux (test_sentence : List Char) (sentiment_pipeline : List Char → String)
    (word : List Char) (end_idx : Nat) : List RawTag → PredictOutput
  | [] => ⟨[word], [clusterResult test_sentence sentiment_pipeline word end_idx]⟩
  | nxt :: rest =>
    if nxt.start - end_idx ≤ 1 then
      clusterAux test_sentence sentiment_pipeline word nxt.end_ rest
    else
      let out := clusterAux test_sentence sentiment_pipeline nxt.word nxt.end_ rest
      ⟨word :: out.entity_list,
        clusterResult test_sentence sentiment_pipeline word end_idx :: out.results⟩

/-- Entry point of the clustering loop: empty organization list yields empty
outputs; otherwise open a cluster at the first mention. -/
def clusterLoop (test_sentence : List Char) (sentiment_pipeline : List Char → String) :
    List RawTag → PredictOutput
  | [] => ⟨[], []⟩
  | org :: rest => clusterAux test_sentence sentiment_pipeline org.word org.end_ rest

/-- Specification-side mirror of the inner absorption `while` loop: the final
`end_idx` of the cluster opened with running end `end_idx` against the
remaining mentions. -/
def absorbEnd (end_idx : Nat) : List RawTag → Nat
  | [] => end_idx
  | nxt :: rest => if nxt.start - end_idx ≤ 1 then absorbEnd nxt.end_ rest else end_idx

/-- The `predict` endpoint body (lines 40-130), with the two pipelines
injected. -/
def predict (ner_pipeline : List Char → List RawTag)
    (sentiment_pipeline : List Char → String) (test_sentence : List Char) :
    PredictOutput :=
  let test_sentence_cap := capitalize test_sentence
  let ner_results := ner_pipeline test_sentence_cap
  let combined := combined_entities test_sentence ner_results
  let withMentions := combined ++ mentionTags test_sentence
  let organizations := withMentions.filter (fun e => e.entity_group == "ORG")
  let organizations := List.insertionSort (fun a b => a.start ≤ b.start) organizations
  clusterLoop test_sentence sentiment_pipeline organizations

/-! ### Concrete test fixtures used by closed statements -/

/-- A classifier that always answers "Neutral". -/
def clNeutral : List Char → String := fun _ => "Neutral"

/-- Text for the gap-1 clustering example: organizations at `[0,2)` and
`[3,5)` are separated by exactly one character. -/
def txGap1 : List Char := "ab cd efghij".toList

/-- Tagger for the gap-1 example. -/
def tgGap1 : List Char → List RawTag :=
  fun _ => [⟨"ORG", "ab".toList, 0, 2⟩, ⟨"ORG", "cd".toList, 3, 5⟩]

/-- Text for the gap-2 clustering example: organizations at `[0,2)` and
`[4,6)` are separated by exactly two characters. -/
def txGap2 : List Char := "ab  de pqrstuv".toList

/-- Tagger for the gap-2 example. -/
def tgGap2 : List Char → List RawTag :=
  fun _ => [⟨"ORG", "ab".toList, 0, 2⟩, ⟨"ORG", "de".toList, 4, 6⟩]

/-- A classifier that discriminates between the two context windows of the
gap-2 example, so that the two clusters demonstrably get independent
sentiment lookups. -/
def clGap : List Char → String :=
  fun c => if c = "  de pqrst".toList then "Positive" else "Negative"

/-- Text for the representative-text example. -/
def txRep : List Char := "AB CD efgh".toList

/-- Tagger for the representative-text example: the two mentions form one
cluster (gap 1), with distinct words "AB" and "CD". -/
def tgRep : List Char → List RawTag :=
  fun _ => [⟨"ORG", "AB".toList, 0, 2⟩, ⟨"ORG", "CD".toList, 3, 5⟩]

/-- Text for the capitalization example: all-lowercase original. -/
def txCap : List Char := "turkcell iyi".toList

/-- Tagger for the capitalization example: answers only on the normalized
copy, with a word carrying the normalized (uppercased) spelling, as the real
NER pipeline does for the text it is given. -/
def tgCap : List Char → List RawTag :=
  fun s => if s = capitalize txCap then [⟨"ORG", "Turkcell".toList, 0, 8⟩] else []

/-! ### General helpers -/

/-- An element returned by `getLast?` is a member of the list. -/
theorem getLastQ_mem {α : Type} : ∀ {l : List α} {a : α}, l.getLast? = some a → a ∈ l
  | [], _, h => by simp at h
  | [_], _, h => by simp_all
  | x :: y :: t, a, h => by
    rw [List.getLast?_cons_cons] at h
    exact List.mem_cons_of_mem x (getLastQ_mem h)

/-- Boolean `isPrefixOf` agrees with the `<+:` relation. -/
theorem isPfxOf_iff {l₁ l₂ : List Char} : l₁.isPrefixOf l₂ = true ↔ l₁ <+: l₂ :=
  List.isPrefixOf_iff_prefix

/-- A contiguous substring of `t` is a contiguous substring of `c :: t`. -/
theorem infix_cons_step {c : Char} {l t : List Char} (h : l <:+: t) : l <:+: c :: t := by
  obtain ⟨s, u, hsu⟩ := h
  exact ⟨c :: s, u, by simp [hsu]⟩

/-- A leading substring is in particular a contiguous substring. -/
theorem infix_of_pfx {l₁ l₂ : List Char} (h : l₁ <+: l₂) : l₁ <:+: l₂ := by
  obtain ⟨t, ht⟩ := h
  exact ⟨[], t, by simp [ht]⟩

/-- Extending a leading substring by a shared head character. -/
theorem pfx_cons_step {c : Char} {l t : List Char} (h : l <+: t) : c :: l <+: c :: t := by
  obtain ⟨u, hu⟩ := h
  exact ⟨u, by simp [hu]⟩

/-- Slicing a list at the length of one of its leading substrings recovers
that substring. -/
theorem pfx_take {pat l : List Char} (h : pat <+: l) : l.take pat.length = pat :=
  (List.prefix_iff_eq_take.mp h).symm

/-- A successful `findSub` points at an occurrence of the pattern. -/
theorem findSub_pfx_drop : ∀ (hay pat : List Char) (s : Nat),
    findSub hay pat = some s → pat <+: hay.drop s
  | [], pat, s, h => by
    unfold findSub at h
    split at h
    next hpre =>
      injection h with h
      subst h
      simpa using isPfxOf_iff.mp hpre
    next => simp at h
  | c :: t, pat, s, h => by
    unfold findSub at h
    split at h
    next hpre =>
      injection h with h
      subst h
      simpa using isPfxOf_iff.mp hpre
    next hpre =>
      cases hs : findSub t pat with
      | none => rw [hs] at h; simp at h
      | some n =>
        rw [hs] at h
        simp at h
        subst h
        rw [List.drop_succ_cons]
        exact findSub_pfx_drop t pat n hs

/-- A successful `findSub` returns an index within the text. -/
theorem findSub_le_length : ∀ (hay pat : List Char) (s : Nat),
    findSub hay pat = some s → s ≤ hay.length
  | [], pat, s, h => by
    unfold findSub at h
    split at h
    · injection h with h; subst h; simp
    · simp at h
  | c :: t, pat, s, h => by
    unfold findSub at h
    split at h
    · injection h with h; subst h; simp
    · cases hs : findSub t pat with
      | none => rw [hs] at h; simp at h
      | some n =>
        rw [hs] at h
        simp at h
        subst h
        simpa using Nat.succ_le_succ (findSub_le_length t pat n hs)

/-- `findSub` succeeds on every contiguous substring. -/
theorem findSub_isSome_of_sub : ∀ (hay pat : List Char), pat <:+: hay →
    (findSub hay pat).isSome = true
  | [], pat, h => by
    rw [List.infix_nil] at h
    subst h
    decide
  | c :: t, pat, h => by
    unfold findSub
    split
    · simp
    next hpre =>
      obtain ⟨s, u, hsu⟩ := h
      cases s with
      | nil =>
        exact absurd (isPfxOf_iff.mpr ⟨u, by simpa using hsu⟩) hpre
      | cons a s' =>
        rw [List.cons_append, List.cons_append] at hsu
        injection hsu with h1 h2
        have ht : pat <:+: t := ⟨s', u, by simpa using h2⟩
        have := findSub_isSome_of_sub t pat ht
        cases hfs : findSub t pat with
        | none => rw [hfs] at this; simp at this
        | some n => simp [hfs]

/-- `findSub` returns the first occurrence: no earlier index carries the
pattern. -/
theorem findSub_min : ∀ (hay pat : List Char) (s : Nat), findSub hay pat = some s →
    ∀ j, j < s → ¬ pat <+: hay.drop j
  | [], pat, s, h => by
    unfold findSub at h
    split at h
    · injection h with h; subst h
      intro j hj
      exact absurd hj (Nat.not_lt_zero j)
    · simp at h
  | c :: t, pat, s, h => by
    unfold findSub at h
    split at h
    next hpre =>
      injection h with h
      subst h
      intro j hj
      exact absurd hj (Nat.not_lt_zero j)
    next hpre =>
      cases hs : findSub t pat with
      | none => rw [hs] at h; simp at h
      | some n =>
        rw [hs] at h
        simp at h
        subst h
        intro j hj
        cases j with
        | zero =>
          intro hcontra
          exact hpre (isPfxOf_iff.mpr (by simpa using hcontra))
        | succ j' =>
          rw [List.drop_succ_cons]
          exact findSub_min t pat n hs j' (Nat.lt_of_succ_lt_succ hj)

/-- Every token produced by `splitWSAux` is the pending accumulator extended
by a leading substring of the remaining input, or a contiguous substring of
the remaining input. -/
theorem splitWSAux_sub : ∀ (l acc tok : List Char), tok ∈ splitWSAux l acc →
    (∃ t, tok = acc.reverse ++ t ∧ t <+: l) ∨ tok <:+: l
  | [], acc, tok, h => by
    unfold splitWSAux at h
    split at h
    · simp at h
    · simp at h
      subst h
      exact Or.inl ⟨[], by simp, ⟨[], rfl⟩⟩
  | c :: rest, acc, tok, h => by
    unfold splitWSAux at h
    by_cases hws : c.isWhitespace
    · rw [if_pos hws] at h
      have hmem : tok ∈ splitWSAux rest [] ∨ tok = acc.reverse := by
        by_cases hacc : acc.isEmpty
        · rw [if_pos hacc] at h
          exact Or.inl h
        · rw [if_neg hacc] at h
          rcases List.mem_cons.mp h with h | h
          · exact Or.inr h
          · exact Or.inl h
      rcases hmem with h | h
      · rcases splitWSAux_sub rest [] tok h with ⟨t, ht, hp⟩ | hinf
        · simp at ht
          subst ht
          exact Or.inr (infix_cons_step (infix_of_pfx hp))
        · exact Or.inr (infix_cons_step hinf)
      · subst h
        exact Or.inl ⟨[], by simp, ⟨c :: rest, rfl⟩⟩
    · rw [if_neg hws] at h
      rcases splitWSAux_sub rest (c :: acc) tok h with ⟨t, ht, hp⟩ | hinf
      · left
        refine ⟨c :: t, ?_, pfx_cons_step hp⟩
        rw [ht]
        simp
      · exact Or.inr (infix_cons_step hinf)

/-- Every whitespace-split token is a contiguous substring of the text. -/
theorem splitWS_sub {l tok : List Char} (h : tok ∈ splitWS l) : tok <:+: l := by
  rcases splitWSAux_sub l [] tok h with ⟨t, ht, hp⟩ | hinf
  · simp at ht
    subst ht
    exact infix_of_pfx hp
  · exact hinf

/-- For every whitespace-split token, the first-occurrence search of the
mention injector succeeds, the resulting synthetic tag records that index,
its span re-slices to the stored token, and the span lies within the text. -/
theorem mention_span {text token : List Char} (htok : token ∈ splitWS text) :
    ∃ s, findSub text token = some s ∧
      mentionTag text token = ⟨"ORG", token, s, s + token.length⟩ ∧
      (text.drop s).take token.length = token ∧
      s + token.length ≤ text.length := by
  have hinf := splitWS_sub htok
  have hsome := findSub_isSome_of_sub text token hinf
  obtain ⟨s, hs⟩ := Option.isSome_iff_exists.mp hsome
  refine ⟨s, hs, ?_, ?_, ?_⟩
  · simp [mentionTag, hs]
  · exact pfx_take (findSub_pfx_drop text token s hs)
  · have h1 := List.IsPrefix.length_le (findSub_pfx_drop text token s hs)
    rw [List.length_drop] at h1
    have h2 := findSub_le_length text token s hs
    omega

/-- `entity_list` and `results` are built in lock-step: the entity list is
the entity projection of the results. -/
theorem clusterAux_map : ∀ (l : List RawTag) (text : List Char) (cl : List Char → String)
    (word : List Char) (e : Nat),
    (clusterAux text cl word e l).entity_list
      = (clusterAux text cl word e l).results.map AttributionResult.entity
  | [], text, cl, word, e => by simp [clusterAux, clusterResult]
  | nxt :: rest, text, cl, word, e => by
    by_cases h : nxt.start - e ≤ 1
    · simp only [clusterAux, if_pos h]
      exact clusterAux_map rest text cl word nxt.end_
    · simp only [clusterAux, if_neg h, List.map_cons]
      rw [clusterAux_map rest text cl nxt.word nxt.end_]
      rfl

/-- Lock-step property at the loop entry. -/
theorem clusterLoop_map (text : List Char) (cl : List Char → String) :
    ∀ orgs : List RawTag,
      (clusterLoop text cl orgs).entity_list
        = (clusterLoop text cl orgs).results.map AttributionResult.entity
  | [] => rfl
  | org :: rest => clusterAux_map rest text cl org.word org.end_

/-- Lock-step property of the whole endpoint. -/
theorem predict_map (tg : List Char → List RawTag) (cl : List Char → String)
    (text : List Char) :
    (predict tg cl text).entity_list
      = (predict tg cl text).results.map AttributionResult.entity :=
  clusterLoop_map text cl _

/-- The first emitted attribution of a nonempty cluster scan is for the
cluster-opening word, with the context window anchored at the final absorbed
end offset. -/
theorem clusterAux_head : ∀ (l : List RawTag) (text : List Char) (cl : List Char → String)
    (word : List Char) (e : Nat),
    (clusterAux text cl word e l).results.head?
      = some (clusterResult text cl word (absorbEnd e l))
  | [], _, _, _, _ => rfl
  | nxt :: rest, text, cl, word, e => by
    by_cases h : nxt.start - e ≤ 1
    · simp only [clusterAux, absorbEnd, if_pos h]
      exact clusterAux_head rest text cl word nxt.end_
    · simp only [clusterAux, absorbEnd, if_neg h]
      rfl

/-- The first entry of the entity list is the cluster-opening word, however
many mentions the cluster absorbs. -/
theorem clusterAux_word_head : ∀ (l : List RawTag) (text : List Char)
    (cl : List Char → String) (word : List Char) (e : Nat),
    (clusterAux text cl word e l).entity_list.head? = some word
  | [], _, _, _, _ => rfl
  | nxt :: rest, text, cl, word, e => by
    by_cases h : nxt.start - e ≤ 1
    · simp only [clusterAux, if_pos h]
      exact clusterAux_word_head rest text cl word nxt.end_
    · simp only [clusterAux, if_neg h]
      rfl

/-- The entity list does not depend on the sentiment classifier. -/
theorem clusterAux_words_indep : ∀ (l : List RawTag) (text : List Char)
    (cl cl' : List Char → String) (word : List Char) (e : Nat),
    (clusterAux text cl word e l).entity_list = (clusterAux text cl' word e l).entity_list
  | [], _, _, _, _, _ => rfl
  | nxt :: rest, text, cl, cl', word, e => by
    by_cases h : nxt.start - e ≤ 1
    · simp only [clusterAux, if_pos h]
      exact clusterAux_words_indep rest text cl cl' word nxt.end_
    · simp only [clusterAux, if_neg h]
      rw [clusterAux_words_indep rest text cl cl' nxt.word nxt.end_]

/-- Classifier-independence of the entity list at the loop entry. -/
theorem clusterLoop_words_indep (text : List Char) (cl cl' : List Char → String) :
    ∀ orgs : List RawTag,
      (clusterLoop text cl orgs).entity_list = (clusterLoop text cl' orgs).entity_list
  | [] => rfl
  | org :: rest => clusterAux_words_indep rest text cl cl' org.word org.end_

/-- Classifier-independence of the entity list of the whole endpoint. -/
theorem predict_words_indep (tg : List Char → List RawTag) (cl cl' : List Char → String)
    (text : List Char) :
    (predict tg cl text).entity_list = (predict tg cl' text).entity_list :=
  clusterLoop_words_indep text cl cl' _

/-- The label-to-text mapping only produces the three user-facing values. -/
theorem sentiment_text_mem (s : String) :
    sentiment_text s ∈ (["olumlu", "olumsuz", "nötr"] : List String) := by
  unfold sentiment_text
  by_cases h1 : s = "Negative"
  · simp [h1]
  · by_cases h2 : s = "Neutral"
    · simp [h1, h2]
    · by_cases h3 : s = "Positive"
      · simp [h1, h2, h3]
      · simp [h1, h2, h3]

/-- Every emitted sentiment of the cluster scan lies in the three-element
user-facing set. -/
theorem clusterAux_sentiment : ∀ (l : List RawTag) (text : List Char)
    (cl : List Char → String) (word : List Char) (e : Nat) (r : AttributionResult),
    r ∈ (clusterAux text cl word e l).results →
    r.sentiment ∈ (["olumlu", "olumsuz", "nötr"] : List String)
  | [], text, cl, word, e, r, h => by
    simp [clusterAux] at h
    subst h
    simp only [clusterResult]
    exact sentiment_text_mem _
  | nxt :: rest, text, cl, word, e, r, h => by
    by_cases hc : nxt.start - e ≤ 1
    · rw [show clusterAux text cl word e (nxt :: rest)
          = clusterAux text cl word nxt.end_ rest by simp only [clusterAux, if_pos hc]] at h
      exact clusterAux_sentiment rest text cl word nxt.end_ r h
    · simp only [clusterAux, if_neg hc] at h
      rcases List.mem_cons.mp h with h | h
      · subst h
        simp only [clusterResult]
        exact sentiment_text_mem _
      · exact clusterAux_sentiment rest text cl nxt.word nxt.end_ r h

/-- Every emitted sentiment at the loop entry lies in the user-facing set. -/
theorem clusterLoop_sentiment (text : List Char) (cl : List Char → String) :
    ∀ (orgs : List RawTag) (r : AttributionResult),
      r ∈ (clusterLoop text cl orgs).results →
      r.sentiment ∈ (["olumlu", "olumsuz", "nötr"] : List String)
  | [], r, hr => by simp [clusterLoop] at hr
  | org :: rest, r, hr => clusterAux_sentiment rest text cl org.word org.end_ r hr

/-- One `##`-merge step never introduces a new `entity_group` value: groups
of the output all come from the accumulator or the incoming tag. -/
theorem combineStep_group (text : List Char) (acc : List RawTag) (a : RawTag)
    (hacc : ∀ e ∈ acc, e.entity_group ≠ "ORG") (ha : a.entity_group ≠ "ORG") :
    ∀ e ∈ combineStep text acc a, e.entity_group ≠ "ORG" := by
  intro e he
  unfold combineStep at he
  split at he
  · split at he
    next last hl =>
      rcases List.mem_append.mp he with h | h
      · exact hacc e (List.dropLast_subset acc h)
      · simp at h
        subst h
        exact hacc last (getLastQ_mem hl)
    next =>
      rcases List.mem_append.mp he with h | h
      · exact hacc e h
      · simp at h
        subst h
        exact ha
  · rcases List.mem_append.mp he with h | h
    · exact hacc e h
    · simp at h
      subst h
      exact ha

/-- The `##`-merge loop never introduces the group "ORG" when neither the
accumulator nor the tagger output carries it. -/
theorem foldl_combineStep_group (text : List Char) :
    ∀ (tags acc : List RawTag), (∀ e ∈ acc, e.entity_group ≠ "ORG") →
      (∀ e ∈ tags, e.entity_group ≠ "ORG") →
      ∀ e ∈ tags.foldl (combineStep text) acc, e.entity_group ≠ "ORG"
  | [], acc, hacc, _ => by
    intro e he
    rw [List.foldl_nil] at he
    exact hacc e he
  | a :: tags, acc, hacc, htags => by
    intro e he
    rw [List.foldl_cons] at he
    exact foldl_combineStep_group text tags (combineStep text acc a)
      (combineStep_group text acc a hacc (htags a (List.mem_cons_self a tags)))
      (fun e' he' => htags e' (List.mem_cons_of_mem a he')) e he

/-- With no tagger-detected "ORG" entity, the merged list has none either. -/
theorem combined_entities_group (text : List Char) (tags : List RawTag)
    (h : ∀ e ∈ tags, e.entity_group ≠ "ORG") :
    ∀ e ∈ combined_entities text tags, e.entity_group ≠ "ORG" :=
  foldl_combineStep_group text tags [] (by simp) h

/-- With no `@`-token in the text, no synthetic mention is injected. -/
theorem mentionTags_nil {text : List Char}
    (h : ∀ tok ∈ splitWS text, tok.head? ≠ some '@') : mentionTags text = [] := by
  unfold mentionTags
  rw [List.filterMap_eq_nil_iff]
  intro tok htok
  rw [if_neg (h tok htok)]

/-! ### Claims -/

/-- C1: for every input text and every pair of injected capabilities, the
output satisfies `len(entity_list) == len(results)` and
`entity_list[k] == results[k]["entity"]` for every index `k`. -/
theorem C1_output_alignment (tg : List Char → List RawTag) (cl : List Char → String)
    (text : List Char) :
    (predict tg cl text).entity_list.length = (predict tg cl text).results.length ∧
    ∀ k : Nat, (predict tg cl text).entity_list[k]?
      = Option.map AttributionResult.entity (predict tg cl text).results[k]? := by
  constructor
  · rw [predict_map]
    exact List.length_map _ _
  · intro k
    rw [predict_map]
    exact List.getElem?_map _ _ _

/-- C2: a `##`-continuation tag with a previously accumulated entity extends
that entity by re-slicing the original (non-capitalized) text from the
previous entity's start to this tag's end and updates its end offset;
concretely, tags Turk/[0,4) and ##cell/[4,8) over original text starting
"Turkcell " merge to the entity "Turkcell" with original casing. -/
theorem C2_subword_merge :
    (∀ (text : List Char) (acc : List RawTag) (e last : RawTag),
        "##".toList <+: e.word → acc.getLast? = some last →
        combineStep text acc e
          = acc.dropLast ++
              [{ last with
                  word := (text.drop last.start).take (e.end_ - last.start),
                  end_ := e.end_ }]) ∧
    combined_entities ("Turkcell enjoyed strong growth".toList)
        [⟨"ORG", "Turk".toList, 0, 4⟩, ⟨"ORG", "##cell".toList, 4, 8⟩]
      = [⟨"ORG", "Turkcell".toList, 0, 8⟩] := by
  refine ⟨?_, by decide⟩
  intro text acc e last hp hl
  have hne : acc.isEmpty = false := by
    cases acc with
    | nil => simp at hl
    | cons x xs => rfl
  have hcond : ("##".toList.isPrefixOf e.word && !acc.isEmpty) = true := by
    rw [Bool.and_eq_true]
    exact ⟨isPfxOf_iff.mpr hp, by simp [hne]⟩
  unfold combineStep
  rw [if_pos hcond, hl]

/-- C2 witness: the merge step applied at the concrete Turk/##cell input. -/
theorem C2_subword_merge_witness :
    ("##".toList <+: "##cell".toList) ∧
    ([⟨"ORG", "Turk".toList, 0, 4⟩] : List RawTag).getLast?
      = some ⟨"ORG", "Turk".toList, 0, 4⟩ ∧
    combineStep ("Turkcell enjoyed strong growth".toList)
        [⟨"ORG", "Turk".toList, 0, 4⟩] ⟨"ORG", "##cell".toList, 4, 8⟩
      = ([⟨"ORG", "Turk".toList, 0, 4⟩] : List RawTag).dropLast ++
          [{ (⟨"ORG", "Turk".toList, 0, 4⟩ : RawTag) with
              word := (("Turkcell enjoyed strong growth".toList).drop 0).take (8 - 0),
              end_ := 8 }] :=
  ⟨by decide, by decide,
    C2_subword_merge.1 ("Turkcell enjoyed strong growth".toList)
      [⟨"ORG", "Turk".toList, 0, 4⟩] ⟨"ORG", "##cell".toList, 4, 8⟩
      ⟨"ORG", "Turk".toList, 0, 4⟩ (by decide) (by decide)⟩

/-- C3: every whitespace token beginning with `@` yields a synthetic "ORG"
entity whose span starts at the first occurrence of the token in the
original text; concretely, for "Hello @Acme world" with a tagger returning
no entities, the entity list contains "@Acme". -/
theorem C3_mention_injection :
    (∀ (text token : List Char), token ∈ splitWS text → token.head? = some '@' →
        ∃ s, findSub text token = some s ∧
          (∀ j, j < s → ¬ token <+: text.drop j) ∧
          (⟨"ORG", token, s, s + token.length⟩ : RawTag) ∈ mentionTags text) ∧
    (∀ cl : List Char → String,
        "@Acme".toList
          ∈ (predict (fun _ => []) cl ("Hello @Acme world".toList)).entity_list) := by
  constructor
  · intro text token htok hat
    obtain ⟨s, hs, htag, _, _⟩ := mention_span htok
    refine ⟨s, hs, findSub_min text token s hs, ?_⟩
    unfold mentionTags
    apply List.mem_filterMap.mpr
    refine ⟨token, htok, ?_⟩
    rw [if_pos hat, htag]
  · intro cl
    rw [predict_words_indep (fun _ => []) cl clNeutral ("Hello @Acme world".toList)]
    decide

/-- C3 witness: the injection property at the concrete "Hello @Acme world"
input. -/
theorem C3_mention_injection_witness :
    (∃ s, findSub ("Hello @Acme world".toList) ("@Acme".toList) = some s ∧
        (∀ j, j < s → ¬ "@Acme".toList <+: ("Hello @Acme world".toList).drop j) ∧
        (⟨"ORG", "@Acme".toList, s, s + ("@Acme".toList).length⟩ : RawTag)
          ∈ mentionTags ("Hello @Acme world".toList)) ∧
    "@Acme".toList
      ∈ (predict (fun _ => []) clNeutral ("Hello @Acme world".toList)).entity_list :=
  ⟨C3_mention_injection.1 ("Hello @Acme world".toList) ("@Acme".toList)
      (by decide) (by decide),
    C3_mention_injection.2 clNeutral⟩

/-- C4: a next mention with `start - cluster_end ≤ 1` is absorbed into the
current cluster (updating the cluster end), while `start - cluster_end = 2`
opens a new cluster; concretely, two organizations one character apart yield
one attribution, and two characters apart yield two attributions with
independent sentiment lookups. -/
theorem C4_adjacency_threshold :
    (∀ (text : List Char) (cl : List Char → String) (word : List Char) (end_idx : Nat)
        (nxt : RawTag) (rest : List RawTag),
        nxt.start - end_idx ≤ 1 →
        clusterAux text cl word end_idx (nxt :: rest)
          = clusterAux text cl word nxt.end_ rest) ∧
    (∀ (text : List Char) (cl : List Char → String) (word : List Char) (end_idx : Nat)
        (nxt : RawTag) (rest : List RawTag),
        nxt.start = end_idx + 2 →
        clusterAux text cl word end_idx (nxt :: rest)
          = ⟨word :: (clusterAux text cl nxt.word nxt.end_ rest).entity_list,
              clusterResult text cl word end_idx
                :: (clusterAux text cl nxt.word nxt.end_ rest).results⟩) ∧
    (predict tgGap1 clGap txGap1).results.length = 1 ∧
    (predict tgGap2 clGap txGap2).results
      = [⟨"ab".toList, "olumlu"⟩, ⟨"de".toList, "olumsuz"⟩] := by
  refine ⟨?_, ?_, by decide, by decide⟩
  · intro text cl word end_idx nxt rest h
    simp only [clusterAux, if_pos h]
  · intro text cl word end_idx nxt rest h
    have h' : ¬ nxt.start - end_idx ≤ 1 := by omega
    simp only [clusterAux, if_neg h']

/-- C4 witness: both threshold branches at concrete mentions. -/
theorem C4_adjacency_threshold_witness :
    ((⟨"ORG", "cd".toList, 3, 5⟩ : RawTag).start - 2 ≤ 1 ∧
      clusterAux txGap1 clGap ("ab".toList) 2 [⟨"ORG", "cd".toList, 3, 5⟩]
        = clusterAux txGap1 clGap ("ab".toList) 5 []) ∧
    ((⟨"ORG", "de".toList, 4, 6⟩ : RawTag).start = 2 + 2 ∧
      clusterAux txGap2 clGap ("ab".toList) 2 [⟨"ORG", "de".toList, 4, 6⟩]
        = ⟨"ab".toList
              :: (clusterAux txGap2 clGap ("de".toList) 6 []).entity_list,
            clusterResult txGap2 clGap ("ab".toList) 2
              :: (clusterAux txGap2 clGap ("de".toList) 6 []).results⟩) :=
  ⟨⟨by decide,
      C4_adjacency_threshold.1 txGap1 clGap ("ab".toList) 2
        ⟨"ORG", "cd".toList, 3, 5⟩ [] (by decide)⟩,
    ⟨by decide,
      C4_adjacency_threshold.2.1 txGap2 clGap ("ab".toList) 2
        ⟨"ORG", "de".toList, 4, 6⟩ [] (by decide)⟩⟩

/-- C5: the sentiment context window of each cluster is exactly the slice
`[cluster_end, min(len(text), cluster_end + 10))` of the original text, and
when the cluster ends at the end of the text the window is empty, the
classifier is still invoked on it, and a defined attribution is still
produced. -/
theorem C5_context_window :
    (∀ (text : List Char) (cl : List Char → String) (org : RawTag) (rest : List RawTag),
        (clusterLoop text cl (org :: rest)).results.head?
          = some ⟨org.word,
              sentiment_text (cl ((text.drop (absorbEnd org.end_ rest)).take
                (min text.length (absorbEnd org.end_ rest + context_window_size)
                  - absorbEnd org.end_ rest)))⟩) ∧
    (∀ (text : List Char) (cl : List Char → String) (org : RawTag) (rest : List RawTag),
        absorbEnd org.end_ rest = text.length →
        ((text.drop (absorbEnd org.end_ rest)).take
            (min text.length (absorbEnd org.end_ rest + context_window_size)
              - absorbEnd org.end_ rest)) = [] ∧
        (clusterLoop text cl (org :: rest)).results.head?
          = some ⟨org.word, sentiment_text (cl [])⟩) := by
  have hmain : ∀ (text : List Char) (cl : List Char → String) (org : RawTag)
      (rest : List RawTag),
      (clusterLoop text cl (org :: rest)).results.head?
        = some ⟨org.word,
            sentiment_text (cl ((text.drop (absorbEnd org.end_ rest)).take
              (min text.length (absorbEnd org.end_ rest + context_window_size)
                - absorbEnd org.end_ rest)))⟩ := by
    intro text cl org rest
    rw [show clusterLoop text cl (org :: rest)
        = clusterAux text cl org.word org.end_ rest from rfl]
    rw [clusterAux_head rest text cl org.word org.end_]
    rfl
  refine ⟨hmain, ?_⟩
  intro text cl org rest h
  have hwin : (text.drop (absorbEnd org.end_ rest)).take
      (min text.length (absorbEnd org.end_ rest + context_window_size)
        - absorbEnd org.end_ rest) = [] := by
    rw [h]
    have h0 : min text.length (text.length + context_window_size) - text.length = 0 := by
      omega
    rw [h0, List.take_zero]
  refine ⟨hwin, ?_⟩
  rw [hmain text cl org rest, hwin]

/-- C5 witness: a cluster ending at the last character of the text. -/
theorem C5_context_window_witness :
    ((("ab".toList).drop (absorbEnd (⟨"ORG", "ab".toList, 0, 2⟩ : RawTag).end_ [])).take
        (min ("ab".toList).length
          (absorbEnd (⟨"ORG", "ab".toList, 0, 2⟩ : RawTag).end_ [] + context_window_size)
          - absorbEnd (⟨"ORG", "ab".toList, 0, 2⟩ : RawTag).end_ []) = []) ∧
    (clusterLoop ("ab".toList) clNeutral [⟨"ORG", "ab".toList, 0, 2⟩]).results.head?
      = some ⟨(⟨"ORG", "ab".toList, 0, 2⟩ : RawTag).word, sentiment_text (clNeutral [])⟩ :=
  C5_context_window.2 ("ab".toList) clNeutral ⟨"ORG", "ab".toList, 0, 2⟩ [] (by decide)

/-- C6: the raw-label mapping is total, maps Negative/Neutral/Positive to
olumsuz/nötr/olumlu, defaults every other label to nötr, and every emitted
sentiment lies in the three-element user-facing set. -/
theorem C6_label_mapping :
    sentiment_text "Negative" = "olumsuz" ∧
    sentiment_text "Neutral" = "nötr" ∧
    sentiment_text "Positive" = "olumlu" ∧
    (∀ s : String, s ≠ "Negative" → s ≠ "Neutral" → s ≠ "Positive" →
        sentiment_text s = "nötr") ∧
    (∀ (tg : List Char → List RawTag) (cl : List Char → String) (text : List Char)
        (r : AttributionResult), r ∈ (predict tg cl text).results →
        r.sentiment ∈ (["olumlu", "olumsuz", "nötr"] : List String)) := by
  refine ⟨by decide, by decide, by decide, ?_, ?_⟩
  · intro s h1 h2 h3
    simp [sentiment_text, h1, h2, h3]
  · intro tg cl text r hr
    unfold predict at hr
    exact clusterLoop_sentiment text cl _ r hr

/-- C6 witness: an unmapped label defaults to nötr, and a concretely emitted
sentiment lies in the user-facing set. -/
theorem C6_label_mapping_witness :
    sentiment_text "Surprise" = "nötr" ∧
    (⟨"@a".toList, "nötr"⟩ : AttributionResult).sentiment
      ∈ (["olumlu", "olumsuz", "nötr"] : List String) :=
  ⟨C6_label_mapping.2.2.2.1 "Surprise" (by decide) (by decide) (by decide),
    C6_label_mapping.2.2.2.2 (fun _ => []) clNeutral ("@a".toList)
      ⟨"@a".toList, "nötr"⟩ (by decide)⟩

/-- C7: the representative text of every cluster, in both outputs, is the
first clustered mention's `word` — not a re-slice of the full cluster span
and not an absorbed mention's text. -/
theorem C7_representative_text :
    (∀ (text : List Char) (cl : List Char → String) (word : List Char) (e : Nat)
        (l : List RawTag),
        (clusterAux text cl word e l).entity_list.head? = some word ∧
        Option.map AttributionResult.entity (clusterAux text cl word e l).results.head?
          = some word) ∧
    (∀ (text : List Char) (cl : List Char → String) (org : RawTag) (rest : List RawTag),
        (clusterLoop text cl (org :: rest)).entity_list.head? = some org.word) ∧
    (predict tgRep clNeutral txRep).entity_list = ["AB".toList] ∧
    txRep.take 5 = "AB CD".toList ∧
    "AB".toList ≠ "AB CD".toList ∧ "AB".toList ≠ "CD".toList := by
  refine ⟨?_, ?_, by decide, by decide, by decide, by decide⟩
  · intro text cl word e l
    refine ⟨clusterAux_word_head l text cl word e, ?_⟩
    rw [clusterAux_head l text cl word e]
    rfl
  · intro text cl org rest
    exact clusterAux_word_head rest text cl org.word org.end_

/-- C8 (amended): the tagger is invoked exactly once, on the
capitalization-normalized copy — the endpoint's output depends on the tagger
only through its value at `capitalize text`. -/
theorem C8_tagger_once (t1 t2 : List Char → List RawTag) (cl : List Char → String)
    (text : List Char) (h : t1 (capitalize text) = t2 (capitalize text)) :
    predict t1 cl text = predict t2 cl text := by
  simp only [predict]
  rw [h]

/-- C8 witness: two taggers agreeing on the normalized copy but not
elsewhere give identical outputs. -/
theorem C8_tagger_once_witness :
    ((fun _ : List Char => ([] : List RawTag)) (capitalize ("ab".toList))
        = (fun s => if s = capitalize ("ab".toList) then ([] : List RawTag)
            else [⟨"ORG", ['x'], 0, 1⟩]) (capitalize ("ab".toList))) ∧
    predict (fun _ => []) clNeutral ("ab".toList)
      = predict (fun s => if s = capitalize ("ab".toList) then []
          else [⟨"ORG", ['x'], 0, 1⟩]) clNeutral ("ab".toList) :=
  ⟨by decide,
    C8_tagger_once (fun _ => [])
      (fun s => if s = capitalize ("ab".toList) then [] else [⟨"ORG", ['x'], 0, 1⟩])
      clNeutral ("ab".toList) (by decide)⟩

/-- C8 counterexample: an output string CAN reflect the normalized copy.  On
the all-lowercase text "turkcell iyi", a tagger answering on the normalized
copy with the word "Turkcell" (the spelling of the copy it was given, no
`##` continuation involved) puts "Turkcell" verbatim into `entity_list`,
which is the `[0,8)` slice of the normalized copy and differs from the
`[0,8)` slice of the original text. -/
theorem C8_tagger_once_counterexample :
    (predict tgCap clNeutral txCap).entity_list = ["Turkcell".toList] ∧
    ((capitalize txCap).drop 0).take (8 - 0) = "Turkcell".toList ∧
    (txCap.drop 0).take (8 - 0) ≠ "Turkcell".toList := by decide

/-- C9: with no `@`-token in the text and no "ORG" entity in the tagger
output, the endpoint returns empty `entity_list` and empty `results`; in
particular the empty input with an empty tagger output yields empty outputs. -/
theorem C9_empty_filtering :
    (∀ (tg : List Char → List RawTag) (cl : List Char → String) (text : List Char),
        (∀ tok ∈ splitWS text, tok.head? ≠ some '@') →
        (∀ e ∈ tg (capitalize text), e.entity_group ≠ "ORG") →
        predict tg cl text = ⟨[], []⟩) ∧
    (∀ cl : List Char → String, predict (fun _ => []) cl [] = ⟨[], []⟩) := by
  constructor
  · intro tg cl text h1 h2
    have hm := mentionTags_nil h1
    have hc := combined_entities_group text (tg (capitalize text)) h2
    have hfilter : (combined_entities text (tg (capitalize text))
        ++ mentionTags text).filter (fun e => e.entity_group == "ORG") = [] := by
      rw [hm, List.append_nil, List.filter_eq_nil_iff]
      intro a ha
      simpa using hc a ha
    simp only [predict]
    rw [hfilter]
    rfl
  · intro cl
    rfl

/-- C9 witness: a text with no `@`-token and a tagger with no "ORG" entity. -/
theorem C9_empty_filtering_witness :
    (∀ tok ∈ splitWS ("hello world".toList), tok.head? ≠ some '@') ∧
    (∀ e ∈ (fun _ : List Char => [(⟨"PER", ['x'], 0, 1⟩ : RawTag)])
        (capitalize ("hello world".toList)), e.entity_group ≠ "ORG") ∧
    predict (fun _ => [⟨"PER", ['x'], 0, 1⟩]) clNeutral ("hello world".toList)
      = ⟨[], []⟩ :=
  ⟨by decide, by decide,
    C9_empty_filtering.1 (fun _ => [⟨"PER", ['x'], 0, 1⟩]) clNeutral
      ("hello world".toList) (by decide) (by decide)⟩

/-- C10: the first-occurrence search for an injected `@`-mention cannot
fail: it returns an index `s` with `text[s : s+len(token)] == token`, and the
injected entity's span lies within `[0, len(text)]`. -/
theorem C10_mention_span_safe (text token : List Char) (htok : token ∈ splitWS text)
    (_hat : token.head? = some '@') :
    ∃ s, findSub text token = some s ∧
      mentionTag text token = ⟨"ORG", token, s, s + token.length⟩ ∧
      (text.drop s).take token.length = token ∧
      s + token.length ≤ text.length :=
  mention_span htok

/-- C10 witness: a repeated handle token; the search lands on the first
occurrence and the span slices back to the token. -/
theorem C10_mention_span_safe_witness :
    ∃ s, findSub ("x @y z @y".toList) ("@y".toList) = some s ∧
      mentionTag ("x @y z @y".toList) ("@y".toList)
        = ⟨"ORG", "@y".toList, s, s + ("@y".toList).length⟩ ∧
      (("x @y z @y".toList).drop s).take ("@y".toList).length = "@y".toList ∧
      s + ("@y".toList).length ≤ ("x @y z @y".toList).length :=
  C10_mention_span_safe ("x @y z @y".toList) ("@y".toList) (by decide) (by decide)
